import Mathlib

/-!
Shallow embedding of the real-time voice session in
`src/services/geminiService.ts` (class `LiveVoiceSession`) and of its audio
codec helpers, together with theorems settling the specification claims.

Modelling conventions:
* JavaScript numbers (doubles holding audio samples and clock times) are
  modelled as rationals `ℚ`; machine 16-bit integers are `ℤ` with the
  wrap-around of JS `ToInt16` written out explicitly.
* Byte buffers (`Uint8Array`) are `List ℕ`; the base64 text encoding
  (`btoa`/`atob`, `arrayBufferToBase64`/`base64ToUint8Array`) is a bijection
  between byte buffers and strings and is modelled as the identity on the
  byte lists, since every claim is about the byte/sample level.
* The mutable fields of the `LiveVoiceSession` class become a state record;
  each method becomes a function from the state (plus the external inputs it
  reads, such as the device clock `currentTime`) to the new state and the
  list of observable emissions (callback invocations and outbound sends).
* A thrown JS exception that no `try`/`catch` in the class intercepts is an
  `Option String` error component in the result (`some e` = the exception
  escapes the handler).
-/

/-!
## Codec (`floatTo16BitPCM`, `decodeAudioData` and byte packing)
-/

/-- The clamp `Math.max(-1, Math.min(1, input[i]))` from `floatTo16BitPCM`. -/
def clamp (s : ℚ) : ℚ := max (-1) (min 1 s)

/-- JS truncation toward zero, as performed by `ToInt16` when a number is
stored into an `Int16Array` element. -/
def truncTowardZero (q : ℚ) : ℤ := if 0 ≤ q then ⌊q⌋ else ⌈q⌉

/-- One sample of `floatTo16BitPCM`:
`output[i] = s < 0 ? s * 0x8000 : s * 0x7FFF` after clamping, where the
store into the `Int16Array` truncates toward zero. -/
def floatTo16BitPCM1 (s : ℚ) : ℤ :=
  if clamp s < 0 then truncTowardZero (clamp s * 32768)
  else truncTowardZero (clamp s * 32767)

/-- `floatTo16BitPCM` over a whole frame. -/
def floatTo16BitPCM (input : List ℚ) : List ℤ := input.map floatTo16BitPCM1

/-- Little-endian packing of one 16-bit sample into two bytes, as in
`new Uint8Array(pcm16.buffer)` (JS typed arrays are little-endian here). -/
def int16ToBytes (i : ℤ) : List ℕ :=
  [(i % 65536).toNat % 256, (i % 65536).toNat / 256]

/-- The byte payload produced by the capture path for one frame:
`floatTo16BitPCM` followed by the `Int16Array`-to-`Uint8Array` view. -/
def encodeChunk (input : List ℚ) : List ℕ :=
  (floatTo16BitPCM input).flatMap int16ToBytes

/-- Reading one little-endian 16-bit signed integer from two bytes, as the
`Int16Array` view over the received buffer does. -/
def bytesToInt16 (lo hi : ℕ) : ℤ :=
  if (lo + 256 * hi : ℤ) < 32768 then lo + 256 * hi else lo + 256 * hi - 65536

/-- The sequence of 16-bit samples an `Int16Array` view reads from an
even-length byte buffer. -/
def toInt16LE : List ℕ → List ℤ
  | lo :: hi :: rest => bytesToInt16 lo hi :: toInt16LE rest
  | _ => []

/-- `decodeAudioData`: `new Int16Array(data.buffer)` throws a `RangeError`
when the byte length is not a multiple of 2; otherwise every sample is
divided by 32768.0. -/
def decodeAudioData (data : List ℕ) : Except String (List ℚ) :=
  if data.length % 2 ≠ 0 then
    Except.error "RangeError: byte length of Int16Array should be a multiple of 2"
  else
    Except.ok ((toInt16LE data).map fun (i : ℤ) => (i : ℚ) / 32768)

/-- Modelled from the spec (§4.1), for comparison with the source: the
spec claims each sample is encoded as
`round(clamp(s,-1,1) * (s<0 ? 32768 : 32767))`, rounding to nearest. -/
def roundSpecEncode (s : ℚ) : ℤ :=
  round (clamp s * (if s < 0 then 32768 else 32767))

/-! Basic codec lemmas. -/

theorem clamp_mem (s : ℚ) : -1 ≤ clamp s ∧ clamp s ≤ 1 := by
  unfold clamp
  constructor
  · exact le_max_left _ _
  · exact max_le (by norm_num) (min_le_left _ _)

theorem clamp_eq_self {s : ℚ} (h1 : -1 ≤ s) (h2 : s ≤ 1) : clamp s = s := by
  unfold clamp
  rw [min_eq_right h2, max_eq_right h1]

theorem floatTo16BitPCM1_of_neg {s : ℚ} (h1 : -1 ≤ s) (h0 : s < 0) :
    floatTo16BitPCM1 s = ⌈s * 32768⌉ := by
  have hclamp := clamp_eq_self h1 (le_of_lt (lt_of_lt_of_le h0 (by norm_num)))
  unfold floatTo16BitPCM1 truncTowardZero
  rw [hclamp, if_pos h0, if_neg (by nlinarith)]

theorem floatTo16BitPCM1_of_nonneg {s : ℚ} (h0 : 0 ≤ s) (h2 : s ≤ 1) :
    floatTo16BitPCM1 s = ⌊s * 32767⌋ := by
  have hclamp := clamp_eq_self (le_trans (by norm_num) h0) h2
  unfold floatTo16BitPCM1 truncTowardZero
  rw [hclamp, if_neg (by simpa using h0), if_pos (by nlinarith)]

theorem floatTo16BitPCM1_range (s : ℚ) :
    -32768 ≤ floatTo16BitPCM1 s ∧ floatTo16BitPCM1 s ≤ 32767 := by
  obtain ⟨h1, h2⟩ := clamp_mem s
  unfold floatTo16BitPCM1 truncTowardZero
  set c := clamp s with hc
  by_cases hneg : c < 0
  · simp only [hneg, if_true]
    have hq : ¬ (0 ≤ c * 32768) := by nlinarith
    simp only [hq, if_false]
    constructor
    · have hle : ((-32768 : ℤ) : ℚ) ≤ c * 32768 := by push_cast; nlinarith
      have h0 := Int.ceil_le_ceil hle
      rw [Int.ceil_intCast] at h0
      exact h0
    · have : c * 32768 ≤ 0 := by nlinarith
      have h0 : ⌈c * 32768⌉ ≤ ⌈(0 : ℚ)⌉ := Int.ceil_le_ceil this
      simp at h0
      omega
  · simp only [hneg, if_false]
    have hc0 : 0 ≤ c := le_of_not_lt hneg
    have hq : 0 ≤ c * 32767 := by nlinarith
    simp only [hq, if_true]
    constructor
    · have h0 : ⌊(0 : ℚ)⌋ ≤ ⌊c * 32767⌋ := Int.floor_le_floor hq
      simp at h0
      omega
    · have : c * 32767 ≤ 32767 := by nlinarith
      have h0 : ⌊c * 32767⌋ ≤ ⌊(32767 : ℚ)⌋ := Int.floor_le_floor this
      simpa using h0

theorem bytesToInt16_pack (i : ℤ) (h1 : -32768 ≤ i) (h2 : i ≤ 32767) :
    bytesToInt16 ((i % 65536).toNat % 256) ((i % 65536).toNat / 256) = i := by
  unfold bytesToInt16
  split <;> omega

theorem toInt16LE_encode (l : List ℤ) (h : ∀ i ∈ l, -32768 ≤ i ∧ i ≤ 32767) :
    toInt16LE (l.flatMap int16ToBytes) = l := by
  induction l with
  | nil => rfl
  | cons i rest ih =>
    obtain ⟨hi1, hi2⟩ := h i (by simp)
    have hstep : toInt16LE ((i :: rest).flatMap int16ToBytes) =
        bytesToInt16 ((i % 65536).toNat % 256) ((i % 65536).toNat / 256) ::
          toInt16LE (rest.flatMap int16ToBytes) := rfl
    rw [hstep, bytesToInt16_pack i hi1 hi2, ih fun j hj => h j (by simp [hj])]

theorem encodeChunk_length (input : List ℚ) :
    (encodeChunk input).length = 2 * input.length := by
  unfold encodeChunk floatTo16BitPCM
  induction input with
  | nil => rfl
  | cons s rest ih =>
    simp only [List.map_cons, List.flatMap_cons, List.length_append, List.length_cons, ih,
      int16ToBytes, List.length_nil]
    omega

theorem decode_encode (input : List ℚ) :
    decodeAudioData (encodeChunk input) =
      Except.ok (input.map fun s => (floatTo16BitPCM1 s : ℚ) / 32768) := by
  unfold decodeAudioData
  rw [if_neg (by rw [encodeChunk_length]; omega)]
  congr 1
  unfold encodeChunk floatTo16BitPCM
  rw [toInt16LE_encode _ (by
    intro i hi
    simp only [List.mem_map] at hi
    obtain ⟨s, _, rfl⟩ := hi
    exact floatTo16BitPCM1_range s)]
  rw [List.map_map]
  rfl

theorem quantize_bound (s : ℚ) (h1 : -1 ≤ s) (h2 : s ≤ 1) :
    |s - (floatTo16BitPCM1 s : ℚ) / 32768| ≤ 1 / 16384 := by
  by_cases hs : s < 0
  · rw [floatTo16BitPCM1_of_neg h1 hs]
    have hn1 : s * 32768 ≤ ((⌈s * 32768⌉ : ℤ) : ℚ) := Int.le_ceil _
    have hn2 : ((⌈s * 32768⌉ : ℤ) : ℚ) < s * 32768 + 1 := Int.ceil_lt_add_one _
    rw [abs_le]
    constructor <;> linarith
  · have hs0 : 0 ≤ s := le_of_not_lt hs
    rw [floatTo16BitPCM1_of_nonneg hs0 h2]
    have hn1 : ((⌊s * 32767⌋ : ℤ) : ℚ) ≤ s * 32767 := Int.floor_le _
    have hn2 : s * 32767 - 1 < ((⌊s * 32767⌋ : ℤ) : ℚ) := Int.sub_one_lt_floor _
    rw [abs_le]
    constructor <;> linarith

theorem floatTo16BitPCM1_half : floatTo16BitPCM1 (1 / 2) = 16383 := by
  rw [floatTo16BitPCM1_of_nonneg (by norm_num) (by norm_num)]
  rw [show ((1 : ℚ) / 2) * 32767 = 32767 / 2 by norm_num]
  rw [Int.floor_eq_iff]
  norm_num

theorem roundSpecEncode_half : roundSpecEncode (1 / 2) = 16384 := by
  unfold roundSpecEncode
  rw [if_neg (by norm_num), clamp_eq_self (by norm_num) (by norm_num)]
  rw [round_eq]
  rw [show ((1 : ℚ) / 2) * 32767 + 1 / 2 = 16384 by norm_num]
  rw [Int.floor_eq_iff]
  norm_num

theorem floatTo16BitPCM1_cex : floatTo16BitPCM1 (40001 / 65534) = 20000 := by
  rw [floatTo16BitPCM1_of_nonneg (by norm_num) (by norm_num)]
  rw [show ((40001 : ℚ) / 65534) * 32767 = 40001 / 2 by norm_num]
  rw [Int.floor_eq_iff]
  norm_num

/-!
## Session state (`LiveVoiceSession` fields) and its operations
-/

/-- One scheduled `AudioBufferSourceNode`: the time `source.start` was given
and the buffer's duration (`buffer.length / sampleRate` seconds). -/
structure PlaybackEntry where
  startTime : ℚ
  duration : ℚ
  deriving DecidableEq

/-- Observable effects of the session: callback invocations
(`onAiSpeaking`, `onTranscription`) and outbound sends on the live
connection (`sendRealtimeInput`, `send` of a client-content turn,
`sendToolResponse`). -/
inductive Emit where
  | aiSpeaking (speaking : Bool)
  | transcription (userText aiText : String) (isFinal : Bool)
  | sendRealtime (mimeType : String) (data : List ℕ)
  | sendClientTurn (text : String) (turnComplete : Bool)
  | sendToolResponse (id name result : String)
  deriving DecidableEq

/-- The mutable fields of class `LiveVoiceSession`. `session`,
`inputContext`, `outputContext` and `cleanup` are nullable references in the
source; here a `Bool` records whether each is non-null. -/
structure LiveVoiceSession where
  session : Bool
  inputContext : Bool
  outputContext : Bool
  nextStartTime : ℚ
  currentSources : List PlaybackEntry
  isMuted : Bool
  cleanup : Bool
  currentInputTranscription : String
  currentOutputTranscription : String
  deriving DecidableEq

/-- Close-call counters on the underlying resources released by the
`cleanup` closure built in `connect`. -/
structure Resources where
  sourceDisconnects : ℕ
  processorDisconnects : ℕ
  trackStops : ℕ
  inputContextCloses : ℕ
  outputContextCloses : ℕ
  sessionCloses : ℕ
  deriving DecidableEq

/-- The freshly constructed session object: every reference null,
`nextStartTime = 0`, no scheduled sources, muted by default. -/
def initialSession : LiveVoiceSession :=
  { session := false
    inputContext := false
    outputContext := false
    nextStartTime := 0
    currentSources := []
    isMuted := true
    cleanup := false
    currentInputTranscription := ""
    currentOutputTranscription := "" }

/-- Effect of a successful `connect`: both audio contexts created, the
connection promise stored in `session`, and the `cleanup` closure
installed. -/
def connectSuccess (st : LiveVoiceSession) : LiveVoiceSession :=
  { st with inputContext := true, outputContext := true,
            session := true, cleanup := true }

/-- A fresh fake-resource record with all close counters at zero. -/
def initialResources : Resources :=
  { sourceDisconnects := 0
    processorDisconnects := 0
    trackStops := 0
    inputContextCloses := 0
    outputContextCloses := 0
    sessionCloses := 0 }

/-- One run of the `cleanup` closure: it disconnects the source and the
processor, stops the tracks and closes both audio contexts and the
connection; each run adds one close call per resource. -/
def runCleanup (r : Resources) : Resources :=
  { sourceDisconnects := r.sourceDisconnects + 1
    processorDisconnects := r.processorDisconnects + 1
    trackStops := r.trackStops + 1
    inputContextCloses := r.inputContextCloses + 1
    outputContextCloses := r.outputContextCloses + 1
    sessionCloses := r.sessionCloses + 1 }

/-- `disconnect()`: `this.cleanup?.(); this.session = null;` — the
`cleanup` field itself is never reset, so a later call runs the closure
again. -/
def disconnect (st : LiveVoiceSession) (r : Resources) :
    LiveVoiceSession × Resources :=
  ({ st with session := false }, if st.cleanup then runCleanup r else r)

/-- `stopAudioOutput()`: stop and clear every scheduled source, reset
`nextStartTime` to `this.outputContext?.currentTime || 0`, and report
`onAiSpeaking(false)`. -/
def stopAudioOutput (st : LiveVoiceSession) (currentTime : ℚ) :
    LiveVoiceSession × List Emit :=
  ({ st with currentSources := [],
             nextStartTime := if st.outputContext then currentTime else 0 },
   [Emit.aiSpeaking false])

/-- `setListening(isListening)`: set `isMuted = !isListening`; muting also
calls `stopAudioOutput()` (resuming suspended contexts has no modelled
state). -/
def setListening (st : LiveVoiceSession) (isListening : Bool)
    (currentTime : ℚ) : LiveVoiceSession × List Emit :=
  if isListening then ({ st with isMuted := false }, [])
  else stopAudioOutput { st with isMuted := true } currentTime

/-- `playAudioBuffer(buffer)`: no-op without an output context; otherwise
`nextStartTime = max(nextStartTime, currentTime)`, report
`onAiSpeaking(true)`, start the source at `nextStartTime`, advance
`nextStartTime` by the buffer duration and add the source to the active
set. -/
def playAudioBuffer (st : LiveVoiceSession) (currentTime duration : ℚ) :
    LiveVoiceSession × List Emit :=
  if !st.outputContext then (st, [])
  else
    ({ st with
        nextStartTime := max st.nextStartTime currentTime + duration,
        currentSources := st.currentSources ++
          [⟨max st.nextStartTime currentTime, duration⟩] },
     [Emit.aiSpeaking true])

/-- `source.onended`: remove the source from the active set; when the set
becomes empty, report `onAiSpeaking(false)`. -/
def sourceOnEnded (st : LiveVoiceSession) (entry : PlaybackEntry) :
    LiveVoiceSession × List Emit :=
  let remaining := st.currentSources.erase entry
  ({ st with currentSources := remaining },
   if remaining.isEmpty then [Emit.aiSpeaking false] else [])

/-- `sendText(text)`: return immediately when `this.session` is null;
otherwise send one user client-content turn with `turnComplete: true`. -/
def sendText (st : LiveVoiceSession) (text : String) :
    LiveVoiceSession × List Emit :=
  if !st.session then (st, [])
  else (st, [Emit.sendClientTurn text true])

/-- The nudge text `sendImage` injects after the image. -/
def nudgeText : String :=
  "I just sent you a photo. Look at it, describe it excitedly to the child, and then use the drawing tool to turn it into a magic scene!"

/-- `sendImage(base64Data)`: return immediately when `this.session` is
null; otherwise send the image as realtime input and then nudge the model
through `sendText`. -/
def sendImage (st : LiveVoiceSession) (base64Data : List ℕ) :
    LiveVoiceSession × List Emit :=
  if !st.session then (st, [])
  else
    (st, Emit.sendRealtime "image/jpeg" base64Data :: (sendText st nudgeText).2)

/-- `processor.onaudioprocess`: drop the frame when muted or without a live
session; otherwise encode it with `floatTo16BitPCM` and send it as
`audio/pcm;rate=16000` realtime input. Nothing is ever buffered and the
session state is untouched either way. -/
def onaudioprocess (st : LiveVoiceSession) (inputData : List ℚ) :
    LiveVoiceSession × List Emit :=
  if st.isMuted || !st.session then (st, [])
  else (st, [Emit.sendRealtime "audio/pcm;rate=16000" (encodeChunk inputData)])

/-!
## Inbound message handling (`callbacks.onmessage`)
-/

/-- One entry of `msg.toolCall.functionCalls`. The arguments object is kept
opaque as its serialized form. -/
structure FunctionCall where
  id : String
  name : String
  args : String
  deriving DecidableEq

/-- The fields of a `LiveServerMessage` the handler reads. Audio payloads
are the decoded base64 bytes of
`serverContent.modelTurn.parts[0].inlineData.data`. -/
structure ServerMessage where
  outputTranscription : Option String := none
  inputTranscription : Option String := none
  turnComplete : Bool := false
  audioData : Option (List ℕ) := none
  functionCalls : List FunctionCall := []
  deriving DecidableEq

/-- The transcription block of `onmessage`: `else if` chains output before
input, then the `turnComplete` flush resets both buffers after emitting the
final snapshot. -/
def handleTranscription (st : LiveVoiceSession) (msg : ServerMessage) :
    LiveVoiceSession × List Emit :=
  let step :=
    match msg.outputTranscription with
    | some t =>
        ({ st with currentOutputTranscription :=
              st.currentOutputTranscription ++ t },
         [Emit.transcription st.currentInputTranscription
            (st.currentOutputTranscription ++ t) false])
    | none =>
        match msg.inputTranscription with
        | some t =>
            ({ st with currentInputTranscription :=
                  st.currentInputTranscription ++ t },
             [Emit.transcription (st.currentInputTranscription ++ t)
                st.currentOutputTranscription false])
        | none => (st, [])
  if msg.turnComplete then
    ({ step.1 with currentInputTranscription := "",
                   currentOutputTranscription := "" },
     step.2 ++ [Emit.transcription step.1.currentInputTranscription
                  step.1.currentOutputTranscription true])
  else step

/-- The audio block of `onmessage`: when audio data is present and the
output context is live, `decodeAudioData` runs (its `RangeError` escapes —
there is no `try`/`catch` in the handler) and the decoded buffer, of
duration `length / 24000` seconds, goes to `playAudioBuffer`. -/
def handleAudio (st : LiveVoiceSession) (audioData : Option (List ℕ))
    (currentTime : ℚ) : LiveVoiceSession × List Emit × Option String :=
  match audioData with
  | none => (st, [], none)
  | some bytes =>
      if st.outputContext then
        match decodeAudioData bytes with
        | Except.error e => (st, [], some e)
        | Except.ok samples =>
            let play := playAudioBuffer st currentTime
              ((samples.length : ℚ) / 24000)
            (play.1, play.2, none)
      else (st, [], none)

/-- The tool-call loop of `onmessage`: for each function call the injected
handler is awaited with no `try`/`catch`; on success its result is sent
back via `sendToolResponse` correlated by the call's `id` and `name`; a
thrown handler error aborts the loop and escapes. -/
def runToolCalls (handler : String → String → Except String String) :
    List FunctionCall → List Emit × Option String
  | [] => ([], none)
  | fc :: rest =>
      match handler fc.name fc.args with
      | Except.error e => ([], some e)
      | Except.ok result =>
          let tail := runToolCalls handler rest
          (Emit.sendToolResponse fc.id fc.name result :: tail.1, tail.2)

/-- The whole `onmessage` callback: transcription, then audio, then tool
calls, mutating the session state in that order; the first uncaught
exception aborts the rest of the handler and is reported in the third
component. `onToolCall` is `none` when the caller supplied no handler. -/
def onmessage (st : LiveVoiceSession) (msg : ServerMessage)
    (currentTime : ℚ)
    (onToolCall : Option (String → String → Except String String)) :
    LiveVoiceSession × List Emit × Option String :=
  let tr := handleTranscription st msg
  let au := handleAudio tr.1 msg.audioData currentTime
  match au.2.2 with
  | some e => (au.1, tr.2 ++ au.2.1, some e)
  | none =>
      match onToolCall with
      | some handler =>
          let tc := runToolCalls handler msg.functionCalls
          (au.1, tr.2 ++ au.2.1 ++ tc.1, tc.2)
      | none => (au.1, tr.2 ++ au.2.1, none)

/-!
## Derived runs used by the claims
-/

/-- A back-to-back burst of decoded fragments, all arriving at the same
device clock `currentTime`, fed to `playAudioBuffer` one by one. -/
def playSequence (st : LiveVoiceSession) (currentTime : ℚ) :
    List ℚ → LiveVoiceSession
  | [] => st
  | d :: ds => playSequence (playAudioBuffer st currentTime d).1 currentTime ds

/-- The schedule the spec describes for a burst starting at time `t`:
entry `i` starts at `t + (sum of the first i durations)`. -/
def scheduleFrom (t : ℚ) : List ℚ → List PlaybackEntry
  | [] => []
  | d :: ds => ⟨t, d⟩ :: scheduleFrom (t + d) ds

/-- A transcription event as delivered by the transport: an incremental
fragment tagged input or output, or the turn-completion marker. -/
inductive TranscriptionEvent where
  | inputFragment (text : String)
  | outputFragment (text : String)
  | turnComplete
  deriving DecidableEq

/-- The server message carrying one transcription event. -/
def TranscriptionEvent.toMessage : TranscriptionEvent → ServerMessage
  | .inputFragment t => { inputTranscription := some t }
  | .outputFragment t => { outputTranscription := some t }
  | .turnComplete => { turnComplete := true }

/-- Feed a sequence of transcription events through `onmessage` (no audio,
no tool handler), collecting all emissions in order. -/
def processEvents : LiveVoiceSession → List TranscriptionEvent →
    LiveVoiceSession × List Emit
  | st, [] => (st, [])
  | st, e :: rest =>
      let one := onmessage st e.toMessage 0 none
      let more := processEvents one.1 rest
      (more.1, one.2.1 ++ more.2)

/-- Modelled from the spec (§4.5), for refinement comparison: the snapshot
trace the Transcript Aggregator must emit from buffers `(inp, out)` —
append and emit a non-final snapshot per fragment, emit a final snapshot
and reset on turn completion. -/
def aggregatorSpecTrace : String → String → List TranscriptionEvent → List Emit
  | _, _, [] => []
  | inp, out, .inputFragment t :: rest =>
      Emit.transcription (inp ++ t) out false ::
        aggregatorSpecTrace (inp ++ t) out rest
  | inp, out, .outputFragment t :: rest =>
      Emit.transcription inp (out ++ t) false ::
        aggregatorSpecTrace inp (out ++ t) rest
  | inp, out, .turnComplete :: rest =>
      Emit.transcription inp out true :: aggregatorSpecTrace "" "" rest

/-- Modelled from the spec (§4.5): the buffer contents after a sequence of
transcription events. -/
def aggregatorSpecBuffers : String → String → List TranscriptionEvent →
    String × String
  | inp, out, [] => (inp, out)
  | inp, out, .inputFragment t :: rest => aggregatorSpecBuffers (inp ++ t) out rest
  | inp, out, .outputFragment t :: rest => aggregatorSpecBuffers inp (out ++ t) rest
  | _, _, .turnComplete :: rest => aggregatorSpecBuffers "" "" rest

/-!
## Helper lemmas about the session operations
-/

theorem playAudioBuffer_cursor_mono (st : LiveVoiceSession) (t d : ℚ)
    (hd : 0 ≤ d) :
    st.nextStartTime ≤ (playAudioBuffer st t d).1.nextStartTime := by
  cases hoc : st.outputContext <;> simp [playAudioBuffer, hoc]
  have := le_max_left st.nextStartTime t
  linarith

theorem handleTranscription_fields (st : LiveVoiceSession)
    (msg : ServerMessage) :
    (handleTranscription st msg).1.nextStartTime = st.nextStartTime ∧
    (handleTranscription st msg).1.currentSources = st.currentSources ∧
    (handleTranscription st msg).1.outputContext = st.outputContext := by
  cases hout : msg.outputTranscription <;>
    cases hin : msg.inputTranscription <;>
    cases htc : msg.turnComplete <;>
    simp [handleTranscription, hout, hin, htc]

theorem runToolCalls_ok (h' : String → String → String)
    (fcs : List FunctionCall) :
    runToolCalls (fun n a => Except.ok (h' n a)) fcs =
      (fcs.map fun fc => Emit.sendToolResponse fc.id fc.name
        (h' fc.name fc.args), none) := by
  induction fcs with
  | nil => rfl
  | cons fc rest ih => simp [runToolCalls, ih]

theorem playSequence_of_cursor_ge (ds : List ℚ) :
    ∀ (st : LiveVoiceSession) (t : ℚ), st.outputContext = true →
      t ≤ st.nextStartTime → (∀ d ∈ ds, 0 ≤ d) →
      (playSequence st t ds).nextStartTime = st.nextStartTime + ds.sum ∧
      (playSequence st t ds).currentSources =
        st.currentSources ++ scheduleFrom st.nextStartTime ds := by
  induction ds with
  | nil =>
    intro st t _ _ _
    simp [playSequence, scheduleFrom]
  | cons d rest ih =>
    intro st t hout hle hd
    have hd0 : 0 ≤ d := hd d (by simp)
    have hmax : max st.nextStartTime t = st.nextStartTime := max_eq_left hle
    have hplay : (playAudioBuffer st t d).1 =
        { st with nextStartTime := st.nextStartTime + d,
                  currentSources :=
                    st.currentSources ++ [⟨st.nextStartTime, d⟩] } := by
      simp [playAudioBuffer, hout, hmax]
    have hrec := ih (playAudioBuffer st t d).1 t
      (by rw [hplay]; exact hout)
      (by rw [hplay]; simp; linarith)
      (fun x hx => hd x (by simp [hx]))
    rw [show playSequence st t (d :: rest) =
        playSequence (playAudioBuffer st t d).1 t rest from rfl]
    rw [hplay] at hrec ⊢
    refine ⟨?_, ?_⟩
    · rw [hrec.1]
      simp [List.sum_cons]
      ring
    · rw [hrec.2]
      simp [scheduleFrom, List.append_assoc]

theorem scheduleFrom_chain (l : List ℚ) : ∀ t : ℚ,
    List.Chain' (fun a b => b.startTime = a.startTime + a.duration)
      (scheduleFrom t l) := by
  induction l with
  | nil => intro t; exact List.chain'_nil
  | cons d rest ih =>
    intro t
    cases rest with
    | nil => exact List.chain'_singleton _
    | cons d2 r2 =>
      show List.Chain' _ (⟨t, d⟩ :: scheduleFrom (t + d) (d2 :: r2))
      rw [List.chain'_cons']
      refine ⟨?_, ih (t + d)⟩
      intro y hy
      simp [scheduleFrom] at hy
      subst hy
      rfl

/-!
## Claim theorems
-/

/-- C3 (counterexample): the claimed quantization bound of `1/32768` fails
on the concrete in-range sample `40001/65534`: the code truncates
`s * 32767 = 20000.5` to `20000`, and decoding gives `20000/32768 =
625/1024`, which is farther than `1/32768` from the original sample. -/
theorem roundtrip_bound_cex :
    (-1 : ℚ) ≤ 40001 / 65534 ∧ (40001 : ℚ) / 65534 ≤ 1 ∧
    decodeAudioData (encodeChunk [40001 / 65534]) = Except.ok [625 / 1024] ∧
    ¬ |(40001 : ℚ) / 65534 - 625 / 1024| ≤ 1 / 32768 := by
  refine ⟨by norm_num, by norm_num, ?_, ?_⟩
  · rw [decode_encode]
    simp [floatTo16BitPCM1_cex]
    norm_num
  · rw [abs_of_pos (by norm_num)]
    norm_num

/-- C3 (amended): for every sample sequence with all elements in `[-1, 1]`,
`decodeAudioData ∘ encodeChunk` succeeds, preserves the length, and every
element of the result differs from the corresponding original by at most
`1/16384` (twice the claimed `1/32768`: truncation toward zero plus the
asymmetric `32767` scale on the non-negative side each contribute up to
`1/32768`). -/
theorem roundtrip_quantization (f : List ℚ)
    (h : ∀ s ∈ f, -1 ≤ s ∧ s ≤ 1) :
    ∃ g, decodeAudioData (encodeChunk f) = Except.ok g ∧
      g.length = f.length ∧
      List.Forall₂ (fun s t => |s - t| ≤ 1 / 16384) f g := by
  refine ⟨_, decode_encode f, by simp, ?_⟩
  rw [List.forall₂_map_right_iff]
  rw [List.forall₂_same]
  intro s hs
  exact quantize_bound s (h s hs).1 (h s hs).2

/-- C3 (witness): the amended round-trip bound evaluated on the concrete
frame `[1/2, -1/3]`. -/
theorem roundtrip_quantization_witness :
    (∀ s ∈ [(1 : ℚ) / 2, -1 / 3], -1 ≤ s ∧ s ≤ 1) ∧
    ∃ g, decodeAudioData (encodeChunk [(1 : ℚ) / 2, -1 / 3]) = Except.ok g ∧
      g.length = 2 ∧
      List.Forall₂ (fun s t => |s - t| ≤ 1 / 16384) [(1 : ℚ) / 2, -1 / 3] g := by
  have hmem : ∀ s ∈ [(1 : ℚ) / 2, -1 / 3], -1 ≤ s ∧ s ≤ 1 := by
    intro s hs
    simp at hs
    rcases hs with rfl | rfl <;> norm_num
  obtain ⟨g, hg1, hg2, hg3⟩ := roundtrip_quantization [(1 : ℚ) / 2, -1 / 3] hmem
  exact ⟨hmem, g, hg1, by simpa using hg2, hg3⟩

/-- C4 (counterexample): at the sample `1/2` the code produces
`⌊16383.5⌋ = 16383` (the `Int16Array` store truncates), while the claimed
`round(clamp(s) * 32767)` gives `16384`. -/
theorem encode_rounding_cex :
    floatTo16BitPCM1 (1 / 2) = 16383 ∧ roundSpecEncode (1 / 2) = 16384 :=
  ⟨floatTo16BitPCM1_half, roundSpecEncode_half⟩

/-- C4 (amended): `floatTo16BitPCM1` maps `s` to
`clamp(s,-1,1) * (s<0 ? 32768 : 32767)` truncated toward zero (not rounded
to nearest): the result is a 16-bit signed integer lying within 1 below
the scaled value on the non-negative side and within 1 above it on the
negative side. -/
theorem encode_truncation_characterization (s : ℚ) :
    (-32768 ≤ floatTo16BitPCM1 s ∧ floatTo16BitPCM1 s ≤ 32767) ∧
    (clamp s < 0 →
      clamp s * 32768 ≤ (floatTo16BitPCM1 s : ℚ) ∧
      (floatTo16BitPCM1 s : ℚ) < clamp s * 32768 + 1) ∧
    (0 ≤ clamp s →
      (floatTo16BitPCM1 s : ℚ) ≤ clamp s * 32767 ∧
      clamp s * 32767 - 1 < (floatTo16BitPCM1 s : ℚ)) := by
  refine ⟨floatTo16BitPCM1_range s, ?_, ?_⟩
  · intro hneg
    have heq : floatTo16BitPCM1 s = ⌈clamp s * 32768⌉ := by
      unfold floatTo16BitPCM1 truncTowardZero
      rw [if_pos hneg, if_neg (by nlinarith)]
    rw [heq]
    exact ⟨Int.le_ceil _, Int.ceil_lt_add_one _⟩
  · intro hpos
    have heq : floatTo16BitPCM1 s = ⌊clamp s * 32767⌋ := by
      unfold floatTo16BitPCM1 truncTowardZero
      rw [if_neg (not_lt.mpr hpos), if_pos (by nlinarith)]
    rw [heq]
    exact ⟨Int.floor_le _, Int.sub_one_lt_floor _⟩

/-- C4 (witness): the truncation characterization evaluated at `s = 1/2`. -/
theorem encode_truncation_characterization_witness :
    (0 : ℚ) ≤ clamp (1 / 2) ∧
    (floatTo16BitPCM1 (1 / 2) : ℚ) ≤ clamp (1 / 2) * 32767 ∧
    clamp (1 / 2) * 32767 - 1 < (floatTo16BitPCM1 (1 / 2) : ℚ) := by
  have h : (0 : ℚ) ≤ clamp (1 / 2) := by
    rw [clamp_eq_self (by norm_num) (by norm_num)]
    norm_num
  exact ⟨h, (encode_truncation_characterization (1 / 2)).2.2 h⟩

/-- C5 (counterexample): on a one-byte audio payload the decode failure is
not contained: `onmessage` has no `try`/`catch`, so the `RangeError`
escapes the message handler instead of being caught and the session's
handler run aborts (nothing after the audio block executes). -/
theorem decode_failure_not_contained_cex :
    (onmessage (connectSuccess initialSession)
        { audioData := some [0] } 0 none).2.2 =
      some "RangeError: byte length of Int16Array should be a multiple of 2" := by
  rfl

/-- C5 (amended): for every chunk of odd byte length, `decodeAudioData`
fails with the `RangeError` and never returns a (partial) frame, and in the
message handler the offending fragment schedules nothing — the session
state is left unchanged — but the error is not contained: it escapes the
handler uncaught. -/
theorem decode_odd_length_error (data : List ℕ) (hodd : data.length % 2 = 1) :
    decodeAudioData data =
      Except.error "RangeError: byte length of Int16Array should be a multiple of 2" ∧
    (∀ g, decodeAudioData data ≠ Except.ok g) ∧
    ∀ (st : LiveVoiceSession) (t : ℚ)
      (h : Option (String → String → Except String String)),
      st.outputContext = true →
      (onmessage st { audioData := some data } t h).1 = st ∧
      (onmessage st { audioData := some data } t h).2.1 = [] ∧
      (onmessage st { audioData := some data } t h).2.2 =
        some "RangeError: byte length of Int16Array should be a multiple of 2" := by
  have hdec : decodeAudioData data =
      Except.error "RangeError: byte length of Int16Array should be a multiple of 2" := by
    unfold decodeAudioData
    rw [if_pos (by omega)]
  refine ⟨hdec, by simp [hdec], ?_⟩
  intro st t h hout
  simp [onmessage, handleTranscription, handleAudio, hdec, hout]

/-- C5 (witness): the odd-length decode behaviour evaluated on the
one-byte chunk `[0]` in a freshly connected session. -/
theorem decode_odd_length_error_witness :
    ([0] : List ℕ).length % 2 = 1 ∧
    (connectSuccess initialSession).outputContext = true ∧
    decodeAudioData [0] =
      Except.error "RangeError: byte length of Int16Array should be a multiple of 2" ∧
    (onmessage (connectSuccess initialSession) { audioData := some [0] } 0 none).1 =
      connectSuccess initialSession := by
  have h1 : ([0] : List ℕ).length % 2 = 1 := rfl
  obtain ⟨hdec, _, hall⟩ := decode_odd_length_error [0] h1
  exact ⟨h1, rfl, hdec, (hall (connectSuccess initialSession) 0 none rfl).1⟩

/-- C6 (counterexample): when the injected tool handler throws, the broker
sends nothing at all — no tool-call-response with an error payload is
emitted — and the exception escapes the message handler. -/
theorem broker_error_response_cex :
    (onmessage (connectSuccess initialSession)
        { functionCalls := [⟨"call-9", "draw_scene", "a red car"⟩] } 0
        (some fun _ _ => Except.error "ToolHandlerError")).2.1 = [] ∧
    (onmessage (connectSuccess initialSession)
        { functionCalls := [⟨"call-9", "draw_scene", "a red car"⟩] } 0
        (some fun _ _ => Except.error "ToolHandlerError")).2.2 =
      some "ToolHandlerError" := by
  constructor <;> rfl

/-- C6 (amended): for each function call the broker awaits the injected
handler; on success it sends one `sendToolResponse` correlated by the
call's original `id` and `name` and carrying the handler's result, in
order; but if the handler throws, no response is sent for that call (or
any later one in the batch) and the exception propagates out of the
message handler uncaught — the broker does not convert failures into
error-result payloads. -/
theorem broker_tool_responses (st : LiveVoiceSession) (t : ℚ) :
    (∀ (fcs : List FunctionCall) (h' : String → String → String),
      onmessage st { functionCalls := fcs } t
          (some fun n a => Except.ok (h' n a)) =
        (st, fcs.map fun fc =>
          Emit.sendToolResponse fc.id fc.name (h' fc.name fc.args), none)) ∧
    (∀ (fc : FunctionCall) (rest : List FunctionCall)
      (handler : String → String → Except String String) (e : String),
      handler fc.name fc.args = Except.error e →
      onmessage st { functionCalls := fc :: rest } t (some handler) =
        (st, [], some e)) := by
  constructor
  · intro fcs h'
    simp [onmessage, handleTranscription, handleAudio, runToolCalls_ok]
  · intro fc rest handler e he
    simp [onmessage, handleTranscription, handleAudio, runToolCalls, he]

/-- C6 (witness): the broker behaviour evaluated on one concrete call,
once with a succeeding handler and once with a throwing one. -/
theorem broker_tool_responses_witness :
    onmessage initialSession
        { functionCalls := [⟨"call-1", "draw_scene", "a red car"⟩] } 0
        (some fun n a => Except.ok (n ++ a)) =
      (initialSession,
       [Emit.sendToolResponse "call-1" "draw_scene" ("draw_scene" ++ "a red car")],
       none) ∧
    onmessage initialSession
        { functionCalls := [⟨"call-1", "draw_scene", "a red car"⟩] } 0
        (some fun _ _ => Except.error "handler threw") =
      (initialSession, [], some "handler threw") :=
  ⟨(broker_tool_responses initialSession 0).1
      [⟨"call-1", "draw_scene", "a red car"⟩] (fun n a => n ++ a),
   (broker_tool_responses initialSession 0).2
      ⟨"call-1", "draw_scene", "a red car"⟩ [] (fun _ _ => Except.error "handler threw")
      "handler threw" rfl⟩

/-- C7 (code bug): after a successful `connect`, calling `disconnect()`
twice runs the `cleanup` closure twice — `disconnect` never clears
`this.cleanup` — so every underlying resource's close/stop call count
reaches 2, not 1; in particular both `AudioContext.close()` calls are
issued a second time on already-closed contexts. -/
theorem disconnect_twice_double_close :
    (disconnect (disconnect (connectSuccess initialSession) initialResources).1
        (disconnect (connectSuccess initialSession) initialResources).2).2 =
      { sourceDisconnects := 2
        processorDisconnects := 2
        trackStops := 2
        inputContextCloses := 2
        outputContextCloses := 2
        sessionCloses := 2 } := by
  rfl

theorem handleAudio_cursor_mono (st : LiveVoiceSession)
    (ad : Option (List ℕ)) (t : ℚ) :
    st.nextStartTime ≤ (handleAudio st ad t).1.nextStartTime := by
  cases ad with
  | none => simp [handleAudio]
  | some bytes =>
    cases hoc : st.outputContext with
    | false => simp [handleAudio, hoc]
    | true =>
      cases hdec : decodeAudioData bytes with
      | error e => simp [handleAudio, hoc, hdec]
      | ok samples =>
        simp only [handleAudio, hoc, hdec]
        exact playAudioBuffer_cursor_mono st t _ (by positivity)

theorem onmessage_cursor_mono (st : LiveVoiceSession) (msg : ServerMessage)
    (t : ℚ) (h : Option (String → String → Except String String)) :
    st.nextStartTime ≤ (onmessage st msg t h).1.nextStartTime := by
  rcases htr2 : handleTranscription st msg with ⟨st1, e1⟩
  rcases hau2 : handleAudio st1 msg.audioData t with ⟨st2, e2, err⟩
  have h1 : st.nextStartTime = st1.nextStartTime := by
    have hf := (handleTranscription_fields st msg).1
    rw [htr2] at hf
    exact hf.symm
  have h2 : st1.nextStartTime ≤ st2.nextStartTime := by
    have hm := handleAudio_cursor_mono st1 msg.audioData t
    rw [hau2] at hm
    exact hm
  have hst : (onmessage st msg t h).1 = st2 := by
    cases err
    all_goals cases h
    all_goals simp [onmessage, htr2, hau2]
  rw [hst]
  linarith

/-- C1: on each decoded fragment the scheduler computes
`startTime = max(nextStartTime, currentTime)`, starts the fragment exactly
there, and advances the cursor by the duration; hence a burst of fragments
arriving at one instant `t` (with the cursor at or behind `t`, as right
after connect) is scheduled back-to-back at the cumulative durations from
`t` — gapless and non-overlapping (each entry starts exactly where the
previous one ends) — and the cursor ends at `t` plus the total duration. -/
theorem playback_burst_schedule (st : LiveVoiceSession) (t d : ℚ)
    (ds : List ℚ) (hout : st.outputContext = true)
    (hcursor : st.nextStartTime ≤ t) (hd : 0 ≤ d) (hds : ∀ x ∈ ds, 0 ≤ x) :
    playAudioBuffer st t d =
      ({ st with nextStartTime := max st.nextStartTime t + d,
                 currentSources := st.currentSources ++
                   [⟨max st.nextStartTime t, d⟩] },
       [Emit.aiSpeaking true]) ∧
    (playSequence st t (d :: ds)).nextStartTime = t + (d :: ds).sum ∧
    (playSequence st t (d :: ds)).currentSources =
      st.currentSources ++ scheduleFrom t (d :: ds) ∧
    List.Chain' (fun a b => b.startTime = a.startTime + a.duration)
      (scheduleFrom t (d :: ds)) := by
  have hmax : max st.nextStartTime t = t := max_eq_right hcursor
  have hplay : (playAudioBuffer st t d).1 =
      { st with nextStartTime := t + d,
                currentSources := st.currentSources ++ [⟨t, d⟩] } := by
    simp [playAudioBuffer, hout, hmax]
  have hrec := playSequence_of_cursor_ge ds (playAudioBuffer st t d).1 t
    (by rw [hplay]; exact hout)
    (by rw [hplay]; simp; linarith)
    hds
  rw [hplay] at hrec
  refine ⟨by simp [playAudioBuffer, hout], ?_, ?_, scheduleFrom_chain _ t⟩
  · rw [show playSequence st t (d :: ds) =
        playSequence (playAudioBuffer st t d).1 t ds from rfl, hplay]
    rw [hrec.1]
    simp [List.sum_cons]
    ring
  · rw [show playSequence st t (d :: ds) =
        playSequence (playAudioBuffer st t d).1 t ds from rfl, hplay]
    rw [hrec.2]
    simp [scheduleFrom, List.append_assoc]

/-- C1 (witness): three 0.5 s fragments arriving back-to-back right after
connect are scheduled at 0, 0.5 and 1.0 and the cursor ends at 1.5. -/
theorem playback_burst_schedule_witness :
    (playSequence (connectSuccess initialSession) 0
      [1/2, 1/2, 1/2]).nextStartTime = 3/2 ∧
    (playSequence (connectSuccess initialSession) 0
      [1/2, 1/2, 1/2]).currentSources =
      [⟨0, 1/2⟩, ⟨1/2, 1/2⟩, ⟨1, 1/2⟩] := by
  obtain ⟨-, h2, h3, -⟩ :=
    playback_burst_schedule (connectSuccess initialSession) 0 (1/2) [1/2, 1/2]
      rfl (le_refl 0) (by norm_num)
      (by intro x hx; simp at hx; rcases hx with rfl | rfl; all_goals norm_num)
  constructor
  · rw [h2]; norm_num
  · rw [h3]
    simp [connectSuccess, initialSession, scheduleFrom]
    norm_num

/-- C2 (counterexample): the claim counts `disconnect` among the explicit
stops that clear the active set and reset the cursor, but `disconnect`
touches neither: after one scheduled fragment, `disconnect` leaves the
entry in the active set and the cursor where it was — not zero entries,
and no reset to the device clock. -/
theorem stop_via_disconnect_cex :
    (disconnect (playAudioBuffer (connectSuccess initialSession) 0 (1/2)).1
        initialResources).1.currentSources = [⟨0, 1/2⟩] ∧
    (disconnect (playAudioBuffer (connectSuccess initialSession) 0 (1/2)).1
        initialResources).1.nextStartTime = 1/2 := by
  constructor <;>
    simp [disconnect, playAudioBuffer, connectSuccess, initialSession]

/-- C2 (amended): the `nextStartTime` cursor never decreases under
`playAudioBuffer` (durations are non-negative), inbound message handling,
source completion, `sendText`, `sendImage`, the capture callback, unmuting,
and `disconnect` — only `stopAudioOutput` (reached via muting,
`setListening(false)`) resets it, and that call clears the active set,
resets the cursor to the current device clock, and signals
`onAiSpeaking(false)`, leaving zero scheduled entries; `disconnect` leaves
both the set and the cursor untouched. -/
theorem cursor_monotone_except_stop :
    (∀ (st : LiveVoiceSession) (t d : ℚ), 0 ≤ d →
      st.nextStartTime ≤ (playAudioBuffer st t d).1.nextStartTime) ∧
    (∀ (st : LiveVoiceSession) (msg : ServerMessage) (t : ℚ)
        (h : Option (String → String → Except String String)),
      st.nextStartTime ≤ (onmessage st msg t h).1.nextStartTime) ∧
    (∀ (st : LiveVoiceSession) (e : PlaybackEntry),
      (sourceOnEnded st e).1.nextStartTime = st.nextStartTime) ∧
    (∀ (st : LiveVoiceSession) (s : String),
      (sendText st s).1.nextStartTime = st.nextStartTime) ∧
    (∀ (st : LiveVoiceSession) (d : List ℕ),
      (sendImage st d).1.nextStartTime = st.nextStartTime) ∧
    (∀ (st : LiveVoiceSession) (f : List ℚ),
      (onaudioprocess st f).1.nextStartTime = st.nextStartTime) ∧
    (∀ (st : LiveVoiceSession) (t : ℚ),
      (setListening st true t).1.nextStartTime = st.nextStartTime) ∧
    (∀ (st : LiveVoiceSession) (r : Resources),
      (disconnect st r).1.nextStartTime = st.nextStartTime ∧
      (disconnect st r).1.currentSources = st.currentSources) ∧
    (∀ (st : LiveVoiceSession) (t : ℚ),
      (stopAudioOutput st t).1.currentSources = [] ∧
      (stopAudioOutput st t).2 = [Emit.aiSpeaking false] ∧
      (st.outputContext = true → (stopAudioOutput st t).1.nextStartTime = t) ∧
      (setListening st false t).1.currentSources = []) := by
  refine ⟨playAudioBuffer_cursor_mono, onmessage_cursor_mono, ?_, ?_, ?_, ?_, ?_, ?_, ?_⟩
  · intro st e
    rfl
  · intro st s
    unfold sendText
    split <;> rfl
  · intro st d
    unfold sendImage
    split <;> rfl
  · intro st f
    unfold onaudioprocess
    split <;> rfl
  · intro st t
    rfl
  · intro st r
    exact ⟨rfl, rfl⟩
  · intro st t
    refine ⟨rfl, rfl, ?_, rfl⟩
    intro hout
    simp [stopAudioOutput, hout]

/-- C2 (witness): the monotone and stop components evaluated concretely —
one `playAudioBuffer` step from the initial state, and one
`stopAudioOutput` in a connected session at device clock 5. -/
theorem cursor_monotone_except_stop_witness :
    initialSession.nextStartTime ≤
      (playAudioBuffer initialSession 2 (1/2)).1.nextStartTime ∧
    (stopAudioOutput (connectSuccess initialSession) 5).1.nextStartTime = 5 :=
  ⟨cursor_monotone_except_stop.1 initialSession 2 (1/2) (by norm_num),
   (cursor_monotone_except_stop.2.2.2.2.2.2.2.2
      (connectSuccess initialSession) 5).2.2.1 rfl⟩

/-- C8: the transcript aggregation in `onmessage` refines the spec's
aggregator exactly: every input-tagged fragment is appended to the input
buffer and every output-tagged fragment to the output buffer, a non-final
snapshot is emitted per fragment in arrival order with no event dropped,
and turn completion emits a final snapshot and then resets both buffers to
empty, so no later fragment belongs to the prior turn. -/
theorem aggregator_refines_spec (evs : List TranscriptionEvent) :
    ∀ st : LiveVoiceSession,
      processEvents st evs =
        ({ st with
            currentInputTranscription := (aggregatorSpecBuffers
              st.currentInputTranscription st.currentOutputTranscription evs).1,
            currentOutputTranscription := (aggregatorSpecBuffers
              st.currentInputTranscription st.currentOutputTranscription evs).2 },
         aggregatorSpecTrace st.currentInputTranscription
           st.currentOutputTranscription evs) := by
  induction evs with
  | nil => intro st; rfl
  | cons e rest ih =>
    intro st
    cases e <;>
      simp [processEvents, TranscriptionEvent.toMessage, onmessage,
        handleTranscription, handleAudio, ih, aggregatorSpecBuffers,
        aggregatorSpecTrace]

/-- C9: the capture callback discards the frame — no send, no buffering,
no state change — exactly when the session is muted or has no live
transport handle; otherwise it sends the PCM16-encoded frame as a
`audio/pcm;rate=16000` media-input message, again without touching state. -/
theorem capture_gating (st : LiveVoiceSession) (frame : List ℚ) :
    ((st.isMuted = true ∨ st.session = false) →
      onaudioprocess st frame = (st, [])) ∧
    (st.isMuted = false → st.session = true →
      onaudioprocess st frame =
        (st, [Emit.sendRealtime "audio/pcm;rate=16000" (encodeChunk frame)])) := by
  constructor
  · rintro (h | h) <;> simp [onaudioprocess, h]
  · intro h1 h2
    simp [onaudioprocess, h1, h2]

/-- C9 (witness): the capture gate evaluated concretely — the frame `[1/2]`
is dropped in the initial (muted) state and sent in a connected, unmuted
state. -/
theorem capture_gating_witness :
    onaudioprocess initialSession [1/2] = (initialSession, []) ∧
    onaudioprocess { connectSuccess initialSession with isMuted := false } [1/2] =
      ({ connectSuccess initialSession with isMuted := false },
       [Emit.sendRealtime "audio/pcm;rate=16000" (encodeChunk [1/2])]) :=
  ⟨(capture_gating initialSession [1/2]).1 (Or.inl rfl),
   (capture_gating { connectSuccess initialSession with isMuted := false }
      [1/2]).2 rfl rfl⟩

/-- C10: with no live session handle, `sendText` and `sendImage` return
immediately — no error, no outbound message, and the entire session state
(cursor, buffers, mute flag, active set) is returned unchanged. -/
theorem sends_noop_without_session (st : LiveVoiceSession)
    (text : String) (img : List ℕ) (h : st.session = false) :
    sendText st text = (st, []) ∧ sendImage st img = (st, []) := by
  constructor <;> simp [sendText, sendImage, h]

/-- C10 (witness): `sendText` and `sendImage` on the freshly constructed,
never-connected session. -/
theorem sends_noop_without_session_witness :
    initialSession.session = false ∧
    sendText initialSession "hello" = (initialSession, []) ∧
    sendImage initialSession [1, 2, 3] = (initialSession, []) :=
  ⟨rfl,
   (sends_noop_without_session initialSession "hello" [1, 2, 3] rfl).1,
   (sends_noop_without_session initialSession "hello" [1, 2, 3] rfl).2⟩
